import Mathlib

/-!
Verification of the maubot-ethzlunch reminder engine.

This development shallowly embeds the reminder persistence layer
(`ethzlunch/db.py`), the utility layer (`reminder/util.py`) and the
command handlers (`ethzlunch/bot.py`) in Lean and proves the behavioural
claims about reconciliation, round-tripping, rate limiting, date
parsing, time formatting, settings validation, subscriber removal and
the permission / frame conditions of the bot handlers.

Modelling conventions:
* instants (`datetime`) are natural numbers (epoch seconds; the code's
  sub-second truncation `replace(microsecond=0)` is the identity at
  this granularity);
* Python dicts are association lists with insertion-order semantics
  (`setKey` overwrites in place or appends);
* SQL tables are lists of row records; `INSERT` appends, `DELETE`
  filters;
* the external `dateparser` library and the timezone-aware `strftime`
  rendering are oracle parameters (`ParseDeps`, `absFmt`), since they
  are third-party collaborators, not code of this repository.
-/

/-- Association-list lookup, modelling Python `d.get(k)` / `k in d`. -/
def lookupKey {α : Type} : List (String × α) → String → Option α
  | [], _ => none
  | (k', v') :: rest, k => if k' = k then some v' else lookupKey rest k

/-- Association-list update, modelling Python `d[k] = v`: overwrite in
place when the key exists, append otherwise. -/
def setKey {α : Type} : List (String × α) → String → α → List (String × α)
  | [], k, v => [(k, v)]
  | (k', v') :: rest, k, v =>
      if k' = k then (k, v) :: rest else (k', v') :: setKey rest k v

/-- Python truthiness of an optional string column: `None` and the empty
string are falsy. -/
def pyTruthyStr : Option String → Bool
  | none => false
  | some s => s != ""

/-- A row of the `reminder` table (`ethzlunch/db.py`). -/
structure ReminderRow where
  event_id : String
  room_id : String
  message : Option String
  reply_to : Option String
  start_time : Option Nat
  recur_every : Option String
  cron_tab : Option String
  is_agenda : Bool
  confirmation_event : Option String
  creator : String
deriving Repr, DecidableEq

/-- A row of the `reminder_target` table (`ethzlunch/db.py`). -/
structure TargetRow where
  event_id : String
  user_id : String
  subscribing_event : String
deriving Repr, DecidableEq

/-- The relational store backing the plugin: the `reminder` table and
the `reminder_target` table. -/
structure Storage where
  reminders : List ReminderRow
  targets : List TargetRow
deriving Repr, DecidableEq

/-- Modelled from the spec: the `Reminder` class lives in `reminder.py`,
which is not among the provided sources; per the spec its constructor
records the trigger fields, payload, creator and subscriber map exactly
as passed (scheduling side effects are outside this model, and the
`bot`/`user_info` constructor arguments play no role in the claims). -/
structure Reminder where
  event_id : String
  room_id : String
  message : Option String
  reply_to : Option String
  start_time : Option Nat
  recur_every : Option String
  cron_tab : Option String
  is_agenda : Bool
  subscribed_users : List (String × String)
  creator : String
  confirmation_event : Option String
deriving Repr, DecidableEq

/-- `db.store_reminder`: the reminder row inserted for an in-memory
reminder.  The `INSERT` does not include `confirmation_event`, so the
stored row has it `NULL`. -/
def reminderToRow (r : Reminder) : ReminderRow :=
  { event_id := r.event_id
    room_id := r.room_id
    message := r.message
    reply_to := r.reply_to
    start_time := r.start_time
    recur_every := r.recur_every
    cron_tab := r.cron_tab
    is_agenda := r.is_agenda
    confirmation_event := none
    creator := r.creator }

/-- `db.store_reminder` (`db.py` lines 102-126): append one row to the
`reminder` table. -/
def store_reminder (st : Storage) (r : Reminder) : Storage :=
  { st with reminders := st.reminders ++ [reminderToRow r] }

/-- `db.delete_reminder` (`db.py` lines 233-239): delete all `reminder`
rows with the given event id (the `reminder_target` table is not
touched). -/
def delete_reminder (st : Storage) (event_id : String) : Storage :=
  { st with reminders := st.reminders.filter (fun r => r.event_id != event_id) }

/-- `db.add_subscriber` (`db.py` lines 259-265): append one row to the
`reminder_target` table. -/
def add_subscriber (st : Storage) (reminder_id user_id subscribing_event : String) : Storage :=
  { st with targets := st.targets ++ [⟨reminder_id, user_id, subscribing_event⟩] }

/-- `db.remove_subscriber` (`db.py` lines 267-273): delete every
`reminder_target` row whose `subscribing_event` matches. -/
def remove_subscriber (st : Storage) (subscribing_event : String) : Storage :=
  { st with targets := st.targets.filter (fun t => t.subscribing_event != subscribing_event) }

/-- A row as seen by the merging loop of `load_all`: rows of the first
query lack the `user_id` key; rows of the join query carry
`user_id` and `subscribing_event`. -/
inductive LoadRow where
  | plain (r : ReminderRow)
  | joined (r : ReminderRow) (user_id : String) (subscribing_event : String)
deriving Repr, DecidableEq

/-- The reminder-table fields of a fetched row. -/
def rowRem : LoadRow → ReminderRow
  | .plain r => r
  | .joined r _ _ => r

/-- The one-off-in-the-past test of `load_all` (`db.py` lines 195-211):
a row with a (truthy) `start_time`, not an agenda, with falsy
`recur_every` and `cron_tab`, whose `start_time` is strictly before
now, is pruned. -/
def pruneCheck (now : Nat) (r : ReminderRow) : Bool :=
  match r.start_time with
  | none => false
  | some t =>
      if r.is_agenda then false
      else if pyTruthyStr r.recur_every || pyTruthyStr r.cron_tab then false
      else decide (t < now)

/-- The in-memory `Reminder` built by `load_all` from a fetched row and
an initial subscriber dict. -/
def rowToReminder (r : ReminderRow) (subscribed_users : List (String × String)) : Reminder :=
  { event_id := r.event_id
    room_id := r.room_id
    message := r.message
    reply_to := r.reply_to
    start_time := r.start_time
    recur_every := r.recur_every
    cron_tab := r.cron_tab
    is_agenda := r.is_agenda
    subscribed_users := subscribed_users
    creator := r.creator
    confirmation_event := r.confirmation_event }

/-- The row-merging loop of `db.load_all` (`db.py` lines 174-229):
fold the fetched rows into the registry dict, folding join rows with an
already-present event id into that reminder's subscriber dict, and
pruning (and deleting from storage) past one-off rows. -/
def runRows (now : Nat) : List LoadRow → List (String × Reminder) → Storage →
    List (String × Reminder) × Storage
  | [], reg, st => (reg, st)
  | .joined r uid sid :: rest, reg, st =>
      match lookupKey reg r.event_id with
      | some rem =>
          runRows now rest
            (setKey reg r.event_id
              { rem with subscribed_users := setKey rem.subscribed_users sid uid }) st
      | none =>
          if pruneCheck now r then
            runRows now rest reg (delete_reminder st r.event_id)
          else
            runRows now rest (setKey reg r.event_id (rowToReminder r [(sid, uid)])) st
  | .plain r :: rest, reg, st =>
      if pruneCheck now r then
        runRows now rest reg (delete_reminder st r.event_id)
      else
        runRows now rest (setKey reg r.event_id (rowToReminder r [])) st

/-- The rows produced by `SELECT ... FROM reminder NATURAL JOIN
reminder_target`: each target row paired with the reminder row sharing
its `event_id`. -/
def joinRows (st : Storage) : List LoadRow :=
  st.targets.filterMap (fun t =>
    (st.reminders.find? (fun r => r.event_id == t.event_id)).map
      (fun r => .joined r t.user_id t.subscribing_event))

/-- `db.load_all` (`db.py` lines 128-231): fetch all reminder rows and
all join rows, then merge them into the registry dict, returning the
registry and the (possibly pruned) storage. -/
def load_all (now : Nat) (st : Storage) : List (String × Reminder) × Storage :=
  runRows now (st.reminders.map .plain ++ joinRows st) [] st

/-- The empty store. -/
def emptyStorage : Storage := ⟨[], []⟩

theorem lookupKey_setKey_self {α : Type} (d : List (String × α)) (k : String) (v : α) :
    lookupKey (setKey d k v) k = some v := by
  induction d with
  | nil => simp [setKey, lookupKey]
  | cons hd tl ih =>
      obtain ⟨k', v'⟩ := hd
      by_cases h : k' = k <;> simp [setKey, lookupKey, h, ih]

theorem lookupKey_setKey_ne {α : Type} (d : List (String × α)) (k e : String) (v : α)
    (h : e ≠ k) : lookupKey (setKey d k v) e = lookupKey d e := by
  have hne : ¬ (k = e) := fun hh => h hh.symm
  induction d with
  | nil => simp [setKey, lookupKey, hne]
  | cons hd tl ih =>
      obtain ⟨k', v'⟩ := hd
      by_cases hk : k' = k
      · subst hk
        simp [setKey, lookupKey, hne]
      · simp only [setKey, if_neg hk, lookupKey]
        by_cases he : k' = e <;> simp [he, ih]

theorem lookupKey_setKey_isSome {α : Type} (d : List (String × α)) (k e : String) (v : α)
    (h : (lookupKey d e).isSome) : (lookupKey (setKey d k v) e).isSome := by
  by_cases hk : e = k
  · subst hk; simp [lookupKey_setKey_self]
  · rw [lookupKey_setKey_ne d k e v hk]; exact h

/-- CLAIM C8: `remove_subscriber` is idempotent: a second call with the
same subscribing reaction-event id leaves the subscriber table exactly
as one call does, and a call for an id with no stored entry is a
no-op that deletes nothing and raises no error. -/
theorem remove_subscriber_idempotent (st : Storage) (se : String) :
    remove_subscriber (remove_subscriber st se) se = remove_subscriber st se ∧
    ((∀ t ∈ st.targets, t.subscribing_event ≠ se) → remove_subscriber st se = st) := by
  constructor
  · simp [remove_subscriber, List.filter_filter]
  · intro h
    have : st.targets.filter (fun t => t.subscribing_event != se) = st.targets := by
      rw [List.filter_eq_self]
      intro t ht
      simpa using h t ht
    simp [remove_subscriber, this]

/-- Witness for C8 at a concrete store: removing the entry for `"s1"`
twice equals removing it once, and removing an absent id is a no-op. -/
theorem remove_subscriber_idempotent_witness :
    remove_subscriber (remove_subscriber ⟨[], [⟨"e", "u", "s1"⟩]⟩ "s1") "s1" =
      remove_subscriber ⟨[], [⟨"e", "u", "s1"⟩]⟩ "s1" ∧
    remove_subscriber (⟨[], [⟨"e", "u", "s1"⟩]⟩ : Storage) "s2" = ⟨[], [⟨"e", "u", "s1"⟩]⟩ := by
  refine ⟨(remove_subscriber_idempotent ⟨[], [⟨"e", "u", "s1"⟩]⟩ "s1").1, ?_⟩
  exact (remove_subscriber_idempotent ⟨[], [⟨"e", "u", "s1"⟩]⟩ "s2").2 (by decide)

theorem runRows_storage_sub (now : Nat) (rows : List LoadRow) :
    ∀ (reg : List (String × Reminder)) (st : Storage),
      ∀ rr ∈ (runRows now rows reg st).2.reminders, rr ∈ st.reminders := by
  induction rows with
  | nil =>
      intro reg st rr h
      simpa [runRows] using h
  | cons row rest ih =>
      intro reg st rr h
      cases row with
      | plain r =>
          by_cases hpr : pruneCheck now r
          · simp only [runRows, if_pos hpr] at h
            exact List.mem_of_mem_filter (ih reg _ rr h)
          · simp only [runRows, if_neg hpr] at h
            exact ih _ _ rr h
      | joined r uid sid =>
          rcases hl : lookupKey reg r.event_id with _ | rem
          · by_cases hpr : pruneCheck now r
            · simp only [runRows, hl, if_pos hpr] at h
              exact List.mem_of_mem_filter (ih reg _ rr h)
            · simp only [runRows, hl, if_neg hpr] at h
              exact ih _ _ rr h
          · simp only [runRows, hl] at h
            exact ih _ _ rr h

theorem runRows_isSome_mono (now : Nat) (rows : List LoadRow) (e : String) :
    ∀ (reg : List (String × Reminder)) (st : Storage),
      (lookupKey reg e).isSome → (lookupKey (runRows now rows reg st).1 e).isSome := by
  induction rows with
  | nil =>
      intro reg st h
      simpa [runRows] using h
  | cons row rest ih =>
      intro reg st h
      cases row with
      | plain r =>
          by_cases hpr : pruneCheck now r
          · simp only [runRows, if_pos hpr]
            exact ih reg _ h
          · simp only [runRows, if_neg hpr]
            exact ih _ _ (lookupKey_setKey_isSome reg r.event_id e _ h)
      | joined r uid sid =>
          rcases hl : lookupKey reg r.event_id with _ | rem
          · by_cases hpr : pruneCheck now r
            · simp only [runRows, hl, if_pos hpr]
              exact ih reg _ h
            · simp only [runRows, hl, if_neg hpr]
              exact ih _ _ (lookupKey_setKey_isSome reg r.event_id e _ h)
          · simp only [runRows, hl]
            exact ih _ _ (lookupKey_setKey_isSome reg r.event_id e _ h)

theorem runRows_lookup_none (now : Nat) (e : String) (r0 : ReminderRow)
    (h2 : pruneCheck now r0 = true) (rows : List LoadRow) :
    ∀ (reg : List (String × Reminder)) (st : Storage),
      (∀ row ∈ rows, (rowRem row).event_id = e → rowRem row = r0) →
      lookupKey reg e = none →
      lookupKey (runRows now rows reg st).1 e = none := by
  induction rows with
  | nil =>
      intro reg st _ h3
      simpa [runRows] using h3
  | cons row rest ih =>
      intro reg st h1 h3
      have h1rest : ∀ row ∈ rest, (rowRem row).event_id = e → rowRem row = r0 :=
        fun row hm => h1 row (List.mem_cons_of_mem _ hm)
      cases row with
      | plain r =>
          by_cases hid : r.event_id = e
          · have hr0 : r = r0 := h1 (.plain r) (List.mem_cons_self _ _) hid
            have hpr : pruneCheck now r = true := by rw [hr0]; exact h2
            simp only [runRows, if_pos hpr]
            exact ih reg _ h1rest h3
          · by_cases hpr : pruneCheck now r
            · simp only [runRows, if_pos hpr]
              exact ih reg _ h1rest h3
            · simp only [runRows, if_neg hpr]
              refine ih _ _ h1rest ?_
              rw [lookupKey_setKey_ne reg r.event_id e _ (fun hh => hid hh.symm)]
              exact h3
      | joined r uid sid =>
          rcases hl : lookupKey reg r.event_id with _ | rem
          · by_cases hid : r.event_id = e
            · have hr0 : r = r0 := h1 (.joined r uid sid) (List.mem_cons_self _ _) hid
              have hpr : pruneCheck now r = true := by rw [hr0]; exact h2
              simp only [runRows, hl, if_pos hpr]
              exact ih reg _ h1rest h3
            · by_cases hpr : pruneCheck now r
              · simp only [runRows, hl, if_pos hpr]
                exact ih reg _ h1rest h3
              · simp only [runRows, hl, if_neg hpr]
                refine ih _ _ h1rest ?_
                rw [lookupKey_setKey_ne reg r.event_id e _ (fun hh => hid hh.symm)]
                exact h3
          · by_cases hid : r.event_id = e
            · rw [hid, h3] at hl
              cases hl
            · simp only [runRows, hl]
              refine ih _ _ h1rest ?_
              rw [lookupKey_setKey_ne _ _ _ _ (fun hh => hid hh.symm)]
              exact h3

theorem runRows_pruned (now : Nat) (e : String) (r0 : ReminderRow)
    (h2 : pruneCheck now r0 = true) (rows : List LoadRow) :
    ∀ (reg : List (String × Reminder)) (st : Storage),
      (∀ row ∈ rows, (rowRem row).event_id = e → rowRem row = r0) →
      lookupKey reg e = none →
      (∃ row ∈ rows, (rowRem row).event_id = e) →
      (lookupKey (runRows now rows reg st).1 e = none ∧
       ∀ rr ∈ (runRows now rows reg st).2.reminders, rr.event_id ≠ e) := by
  induction rows with
  | nil =>
      rintro reg st _ _ ⟨row, hm, _⟩
      cases hm
  | cons row rest ih =>
      intro reg st h1 h3 hex
      have h1rest : ∀ row ∈ rest, (rowRem row).event_id = e → rowRem row = r0 :=
        fun row hm => h1 row (List.mem_cons_of_mem _ hm)
      cases row with
      | plain r =>
          by_cases hid : r.event_id = e
          · have hr0 : r = r0 := h1 (.plain r) (List.mem_cons_self _ _) hid
            have hpr : pruneCheck now r = true := by rw [hr0]; exact h2
            simp only [runRows, if_pos hpr]
            refine ⟨runRows_lookup_none now e r0 h2 rest reg _ h1rest h3, ?_⟩
            intro rr hm
            have hmem := runRows_storage_sub now rest reg _ rr hm
            have hf := List.of_mem_filter hmem
            rw [hid] at hf
            simpa using hf
          · obtain ⟨row', hmr, hid'⟩ := hex
            have hrest : ∃ row ∈ rest, (rowRem row).event_id = e := by
              rcases List.mem_cons.mp hmr with h | h
              · exact absurd hid' (by rw [h]; exact hid)
              · exact ⟨row', h, hid'⟩
            by_cases hpr : pruneCheck now r
            · simp only [runRows, if_pos hpr]
              exact ih reg _ h1rest h3 hrest
            · simp only [runRows, if_neg hpr]
              refine ih _ _ h1rest ?_ hrest
              rw [lookupKey_setKey_ne reg r.event_id e _ (fun hh => hid hh.symm)]
              exact h3
      | joined r uid sid =>
          rcases hl : lookupKey reg r.event_id with _ | rem
          · by_cases hid : r.event_id = e
            · have hr0 : r = r0 := h1 (.joined r uid sid) (List.mem_cons_self _ _) hid
              have hpr : pruneCheck now r = true := by rw [hr0]; exact h2
              simp only [runRows, hl, if_pos hpr]
              refine ⟨runRows_lookup_none now e r0 h2 rest reg _ h1rest h3, ?_⟩
              intro rr hm
              have hmem := runRows_storage_sub now rest reg _ rr hm
              have hf := List.of_mem_filter hmem
              rw [hid] at hf
              simpa using hf
            · obtain ⟨row', hmr, hid'⟩ := hex
              have hrest : ∃ row ∈ rest, (rowRem row).event_id = e := by
                rcases List.mem_cons.mp hmr with h | h
                · exact absurd hid' (by rw [h]; exact hid)
                · exact ⟨row', h, hid'⟩
              by_cases hpr : pruneCheck now r
              · simp only [runRows, hl, if_pos hpr]
                exact ih reg _ h1rest h3 hrest
              · simp only [runRows, hl, if_neg hpr]
                refine ih _ _ h1rest ?_ hrest
                rw [lookupKey_setKey_ne reg r.event_id e _ (fun hh => hid hh.symm)]
                exact h3
          · by_cases hid : r.event_id = e
            · rw [hid, h3] at hl
              cases hl
            · obtain ⟨row', hmr, hid'⟩ := hex
              have hrest : ∃ row ∈ rest, (rowRem row).event_id = e := by
                rcases List.mem_cons.mp hmr with h | h
                · exact absurd hid' (by rw [h]; exact hid)
                · exact ⟨row', h, hid'⟩
              simp only [runRows, hl]
              refine ih _ _ h1rest ?_ hrest
              rw [lookupKey_setKey_ne _ _ _ _ (fun hh => hid hh.symm)]
              exact h3

theorem runRows_inserts (now : Nat) (r1 : ReminderRow)
    (hp : pruneCheck now r1 = false) (rows : List LoadRow) :
    ∀ (reg : List (String × Reminder)) (st : Storage),
      (∃ row ∈ rows, rowRem row = r1) →
      (lookupKey (runRows now rows reg st).1 r1.event_id).isSome := by
  induction rows with
  | nil =>
      rintro reg st ⟨row, hm, _⟩
      cases hm
  | cons row rest ih =>
      intro reg st hex
      obtain ⟨row', hmr, heq⟩ := hex
      rcases List.mem_cons.mp hmr with hhead | htail
      · subst hhead
        cases row' with
        | plain r =>
            have hr : r = r1 := heq
            have hpr : ¬ pruneCheck now r := by rw [hr, hp]; simp
            simp only [runRows, if_neg hpr]
            refine runRows_isSome_mono now rest _ _ _ ?_
            rw [hr, lookupKey_setKey_self]
            rfl
        | joined r uid sid =>
            have hr : r = r1 := heq
            rcases hl : lookupKey reg r.event_id with _ | rem
            · have hpr : ¬ pruneCheck now r := by rw [hr, hp]; simp
              simp only [runRows, hl, if_neg hpr]
              refine runRows_isSome_mono now rest _ _ _ ?_
              rw [hr, lookupKey_setKey_self]
              rfl
            · simp only [runRows, hl]
              refine runRows_isSome_mono now rest _ _ _ ?_
              rw [hr, lookupKey_setKey_self]
              rfl
      · have hexrest : ∃ row ∈ rest, rowRem row = r1 := ⟨row', htail, heq⟩
        cases row with
        | plain r =>
            by_cases hpr : pruneCheck now r
            · simp only [runRows, if_pos hpr]
              exact ih reg _ hexrest
            · simp only [runRows, if_neg hpr]
              exact ih _ _ hexrest
        | joined r uid sid =>
            rcases hl : lookupKey reg r.event_id with _ | rem
            · by_cases hpr : pruneCheck now r
              · simp only [runRows, hl, if_pos hpr]
                exact ih reg _ hexrest
              · simp only [runRows, hl, if_neg hpr]
                exact ih _ _ hexrest
            · simp only [runRows, hl]
              exact ih _ _ hexrest

/-- The claim's notion of a stored one-off reminder whose trigger
instant is strictly in the past: no (truthy) recurrence interval, no
(truthy) cron tab, not an agenda, and a stored start time strictly
before now. -/
def oneOffPast (now : Nat) (r : ReminderRow) : Prop :=
  r.is_agenda = false ∧ pyTruthyStr r.recur_every = false ∧ pyTruthyStr r.cron_tab = false ∧
  ∃ t, r.start_time = some t ∧ t < now

theorem pruneCheck_iff (now : Nat) (r : ReminderRow) :
    pruneCheck now r = true ↔ oneOffPast now r := by
  cases hst : r.start_time with
  | none =>
      simp [pruneCheck, oneOffPast, hst]
  | some t =>
      cases hag : r.is_agenda <;>
        cases hre : pyTruthyStr r.recur_every <;>
          cases hct : pyTruthyStr r.cron_tab <;>
            simp [pruneCheck, oneOffPast, hst, hag, hre, hct]

/-- CLAIM C1: after reconciliation (`load_all`), every stored reminder
row that is a one-off (no recurrence, no cron tab, not an agenda) whose
stored start time is strictly before now is absent from the returned
registry dict and its row has been deleted from storage; every other
stored reminder row appears in the returned dict keyed by its event id.
The storage rows are assumed to have pairwise distinct event ids (the
column is the table's key). -/
theorem load_all_reconciliation (now : Nat) (st : Storage)
    (hN : (st.reminders.map (fun r => r.event_id)).Nodup) :
    ∀ r ∈ st.reminders,
      (oneOffPast now r →
        lookupKey (load_all now st).1 r.event_id = none ∧
        ∀ rr ∈ (load_all now st).2.reminders, rr.event_id ≠ r.event_id) ∧
      (¬ oneOffPast now r → (lookupKey (load_all now st).1 r.event_id).isSome) := by
  intro r hr
  have hinj := List.inj_on_of_nodup_map hN
  constructor
  · intro hpast
    have h2 : pruneCheck now r = true := (pruneCheck_iff now r).mpr hpast
    have h1 : ∀ row ∈ st.reminders.map LoadRow.plain ++ joinRows st,
        (rowRem row).event_id = r.event_id → rowRem row = r := by
      intro row hm hid
      rcases List.mem_append.mp hm with h | h
      · obtain ⟨r', hr', hrow⟩ := List.mem_map.mp h
        rw [← hrow] at hid ⊢
        exact hinj hr' hr hid
      · obtain ⟨t, ht, hmap⟩ := List.mem_filterMap.mp h
        rcases hfind : st.reminders.find? (fun rr => rr.event_id == t.event_id) with _ | r'
        · rw [hfind] at hmap
          cases hmap
        · rw [hfind] at hmap
          have hrow : LoadRow.joined r' t.user_id t.subscribing_event = row :=
            Option.some.inj hmap
          have hr'mem := List.mem_of_find?_eq_some hfind
          rw [← hrow] at hid ⊢
          exact hinj hr'mem hr hid
    have hex : ∃ row ∈ st.reminders.map LoadRow.plain ++ joinRows st,
        (rowRem row).event_id = r.event_id :=
      ⟨.plain r, List.mem_append_left _ (List.mem_map_of_mem _ hr), rfl⟩
    simpa only [load_all] using
      runRows_pruned now r.event_id r h2 (st.reminders.map LoadRow.plain ++ joinRows st)
        [] st h1 rfl hex
  · intro hnot
    have hp : pruneCheck now r = false := by
      cases h : pruneCheck now r
      · rfl
      · exact absurd ((pruneCheck_iff now r).mp h) hnot
    simpa only [load_all] using
      runRows_inserts now r hp (st.reminders.map LoadRow.plain ++ joinRows st) [] st
        ⟨.plain r, List.mem_append_left _ (List.mem_map_of_mem _ hr), rfl⟩

/-- A stored one-off row whose start time (0) is strictly before now. -/
def rowPastEx : ReminderRow :=
  ⟨"a", "room", some "msg", none, some 0, none, none, false, none, "user"⟩

/-- A stored cron reminder row (kept by reconciliation). -/
def rowKeepEx : ReminderRow :=
  ⟨"b", "room", some "msg", none, none, none, some "0 11 * * mon-fri", false, none, "user"⟩

/-- Witness for C1 on a concrete store at time 5: the past one-off
`"a"` is pruned from registry and storage while the cron row `"b"`
stays in the registry. -/
theorem load_all_reconciliation_witness :
    (lookupKey (load_all 5 ⟨[rowPastEx, rowKeepEx], []⟩).1 "a" = none ∧
      ∀ rr ∈ (load_all 5 (⟨[rowPastEx, rowKeepEx], []⟩ : Storage)).2.reminders,
        rr.event_id ≠ "a") ∧
    (lookupKey (load_all 5 ⟨[rowPastEx, rowKeepEx], []⟩).1 "b").isSome := by
  have h := load_all_reconciliation 5 ⟨[rowPastEx, rowKeepEx], []⟩ (by decide)
  refine ⟨(h rowPastEx (by decide)).1 ⟨rfl, rfl, rfl, 0, rfl, by omega⟩, ?_⟩
  refine (h rowKeepEx (by decide)).2 ?_
  intro hcon
  exact absurd ((pruneCheck_iff 5 rowKeepEx).mpr hcon) (by decide)

theorem lookupKey_append_of_none {α : Type} (a b : List (String × α)) (k : String)
    (h : lookupKey a k = none) : lookupKey (a ++ b) k = lookupKey b k := by
  induction a with
  | nil => rfl
  | cons hd tl ih =>
      obtain ⟨k', v'⟩ := hd
      by_cases hk : k' = k
      · rw [lookupKey, if_pos hk] at h
        cases h
      · rw [lookupKey, if_neg hk] at h
        simpa [lookupKey, hk] using ih h

theorem setKey_of_none {α : Type} (d : List (String × α)) (k : String) (v : α)
    (h : lookupKey d k = none) : setKey d k v = d ++ [(k, v)] := by
  induction d with
  | nil => rfl
  | cons hd tl ih =>
      obtain ⟨k', v'⟩ := hd
      by_cases hk : k' = k
      · rw [lookupKey, if_pos hk] at h
        cases h
      · rw [lookupKey, if_neg hk] at h
        simp [setKey, hk, ih h]

theorem foldl_setKey_fresh (subs : List (String × String)) :
    ∀ acc : List (String × String),
      (subs.map Prod.fst).Nodup →
      (∀ k ∈ subs.map Prod.fst, lookupKey acc k = none) →
      subs.foldl (fun d p => setKey d p.1 p.2) acc = acc ++ subs := by
  induction subs with
  | nil => intro acc _ _; simp
  | cons p rest ih =>
      intro acc hN hfresh
      obtain ⟨k, v⟩ := p
      simp only [List.map_cons, List.nodup_cons] at hN
      have hk : lookupKey acc k = none := hfresh k (by simp)
      simp only [List.foldl_cons]
      rw [setKey_of_none acc k v hk]
      rw [ih (acc ++ [(k, v)]) hN.2 ?_]
      · simp
      · intro k' hk'
        rw [lookupKey_append_of_none acc _ k' (hfresh k' (by simp [hk']))]
        have hne : ¬ (k = k') := fun hh => hN.1 (hh ▸ hk')
        simp [lookupKey, hne]

theorem foldl_add_subscriber (eid : String) (subs : List (String × String)) :
    ∀ st0 : Storage,
      subs.foldl (fun acc p => add_subscriber acc eid p.2 p.1) st0 =
        ⟨st0.reminders, st0.targets ++ subs.map (fun p => ⟨eid, p.2, p.1⟩)⟩ := by
  induction subs with
  | nil => intro st0; simp
  | cons p rest ih =>
      intro st0
      simp only [List.foldl_cons, List.map_cons]
      rw [ih]
      simp [add_subscriber]

theorem joinRows_single (row : ReminderRow) (subs : List (String × String)) :
    joinRows ⟨[row], subs.map (fun p => ⟨row.event_id, p.2, p.1⟩)⟩ =
      subs.map (fun p => LoadRow.joined row p.2 p.1) := by
  induction subs with
  | nil => rfl
  | cons p rest ih =>
      simp only [joinRows, List.map_cons, List.filterMap_cons] at ih ⊢
      rw [List.find?]
      simp only [beq_self_eq_true]
      simpa using ih

theorem runRows_joined_all (now : Nat) (row : ReminderRow) (subs : List (String × String)) :
    ∀ (cur : Reminder) (st : Storage),
      runRows now (subs.map (fun p => LoadRow.joined row p.2 p.1)) [(row.event_id, cur)] st =
        ([(row.event_id,
           { cur with subscribed_users :=
               subs.foldl (fun d p => setKey d p.1 p.2) cur.subscribed_users })], st) := by
  induction subs with
  | nil => intro cur st; rfl
  | cons p rest ih =>
      intro cur st
      simp only [List.map_cons, runRows, lookupKey, if_pos rfl, setKey, List.foldl_cons]
      exact ih _ st

/-- CLAIM C2 (amended): persisting a reminder via `store_reminder` plus
its subscriber rows via `add_subscriber` and then reconciling with
`load_all` yields exactly one registry entry for that event id, whose
trigger fields and message equal the persisted ones and whose
subscriber map agrees with the persisted subscriber set (order not
significant).  Amendment forced by the code: the reminder must not be a
past one-off (`pruneCheck` false), since `load_all` deletes past
one-offs instead of returning them; subscribing event ids are pairwise
distinct (they are reaction event ids, the table key). -/
theorem store_load_round_trip (r : Reminder) (subs : List (String × String)) (now : Nat)
    (hk : (subs.map Prod.fst).Nodup)
    (hp : pruneCheck now (reminderToRow r) = false) :
    ∃ rr, (load_all now (subs.foldl (fun acc p => add_subscriber acc r.event_id p.2 p.1)
              (store_reminder emptyStorage r))).1 = [(r.event_id, rr)] ∧
      rr.start_time = r.start_time ∧ rr.recur_every = r.recur_every ∧
      rr.cron_tab = r.cron_tab ∧ rr.is_agenda = r.is_agenda ∧ rr.message = r.message ∧
      ∀ sid, lookupKey rr.subscribed_users sid = lookupKey subs sid := by
  have hst : subs.foldl (fun acc p => add_subscriber acc r.event_id p.2 p.1)
      (store_reminder emptyStorage r) =
      (⟨[reminderToRow r], subs.map (fun p => ⟨r.event_id, p.2, p.1⟩)⟩ : Storage) := by
    rw [foldl_add_subscriber]
    rfl
  rw [hst]
  refine ⟨{ rowToReminder (reminderToRow r) [] with subscribed_users := subs }, ?_, rfl, rfl,
    rfl, rfl, rfl, fun sid => rfl⟩
  have heid : (reminderToRow r).event_id = r.event_id := rfl
  rw [load_all]
  have hjr : joinRows ⟨[reminderToRow r], subs.map (fun p => ⟨r.event_id, p.2, p.1⟩)⟩ =
      subs.map (fun p => LoadRow.joined (reminderToRow r) p.2 p.1) := by
    have := joinRows_single (reminderToRow r) subs
    rw [heid] at this
    exact this
  rw [hjr]
  have hpr : ¬ pruneCheck now (reminderToRow r) = true := by rw [hp]; simp
  show (runRows now (LoadRow.plain (reminderToRow r) ::
      subs.map (fun p => LoadRow.joined (reminderToRow r) p.2 p.1)) [] _).1 = _
  simp only [runRows, if_neg hpr, setKey]
  rw [runRows_joined_all]
  rw [show (rowToReminder (reminderToRow r) []).subscribed_users = [] from rfl]
  rw [foldl_setKey_fresh subs [] hk (fun k _ => rfl)]
  simp [heid]

/-- A one-off reminder whose start time (0) is already past at load
time 1. -/
def rPastOneOff : Reminder :=
  ⟨"e", "room", some "m", none, some 0, none, none, false, [], "u", none⟩

/-- Counterexample to C2 as stated: storing the past one-off
`rPastOneOff` and reconciling at time 1 yields a registry with no entry
for its event id (the row is pruned), so the unconditional round-trip
claim is false. -/
theorem store_load_round_trip_counterexample :
    lookupKey (load_all 1 (store_reminder emptyStorage rPastOneOff)).1 "e" = none ∧
    (load_all 1 (store_reminder emptyStorage rPastOneOff)).2 = emptyStorage := by
  decide

/-- A future one-off reminder (start time 5, loaded at time 0). -/
def rFutureEx : Reminder :=
  ⟨"e", "room", some "m", none, some 5, none, none, false, [], "u", none⟩

/-- Witness for the amended C2 at a concrete reminder with one
subscriber. -/
theorem store_load_round_trip_witness :
    ∃ rr, (load_all 0 ([("s", "u2")].foldl
              (fun acc p => add_subscriber acc rFutureEx.event_id p.2 p.1)
              (store_reminder emptyStorage rFutureEx))).1 = [(rFutureEx.event_id, rr)] ∧
      rr.start_time = rFutureEx.start_time ∧ rr.recur_every = rFutureEx.recur_every ∧
      rr.cron_tab = rFutureEx.cron_tab ∧ rr.is_agenda = rFutureEx.is_agenda ∧
      rr.message = rFutureEx.message ∧
      ∀ sid, lookupKey rr.subscribed_users sid = lookupKey [("s", "u2")] sid :=
  store_load_round_trip rFutureEx [("s", "u2")] 0 (by decide) (by decide)

/-- The front-eviction loop of `UserInfo.check_rate_limit`
(`reminder/util.py` line 60-61): pop timestamps from the front while
the head is older than the window. -/
def trimOld (now time_window : Nat) : List Nat → List Nat
  | [] => []
  | t :: rest =>
      if t + time_window < now then trimOld now time_window rest else t :: rest

/-- `UserInfo.check_rate_limit` (`reminder/util.py` lines 50-64),
with the clock as an explicit argument (minutes): evict old timestamps
from the front, append `now` when the remaining count is below
`max_calls`, and return the resulting count with the new deque. -/
def check_rate_limit (max_calls time_window now : Nat) (last_reminders : List Nat) :
    Nat × List Nat :=
  let lr := trimOld now time_window last_reminders
  if lr.length < max_calls then (lr.length + 1, lr ++ [now]) else (lr.length, lr)

theorem trimOld_eq_filter (now w : Nat) (dq : List Nat) (hs : dq.Pairwise (· ≤ ·)) :
    trimOld now w dq = dq.filter (fun t => !decide (t + w < now)) := by
  induction dq with
  | nil => rfl
  | cons t rest ih =>
      rw [List.pairwise_cons] at hs
      by_cases h : t + w < now
      · simp [trimOld, List.filter_cons, h, ih hs.2]
      · have hall : ∀ x ∈ rest, (!decide (x + w < now)) = true := by
          intro x hx
          have := hs.1 x hx
          simp only [Bool.not_eq_true', decide_eq_false_iff_not]
          omega
        simp [trimOld, List.filter_cons, h, List.filter_eq_self.mpr hall]

/-- CLAIM C3: `check_rate_limit` first removes from the front every
timestamp older than `time_window` (a prefix trim that, on a
non-decreasing deque, removes exactly the old timestamps); then appends
`now` and returns the resulting count when the remaining count is
strictly below `max_calls`, and otherwise returns the count unchanged
without appending.  With `max_calls = 5`, `time_window = 60`, six
calls at minutes 0,2,4,6,8,10 return 1,2,3,4,5 and then 5 (≥ 5) with
no sixth timestamp recorded; at minute 61 the first timestamp has left
the window and the call records again. -/
theorem check_rate_limit_spec (max_calls time_window now : Nat) (dq : List Nat)
    (hs : dq.Pairwise (· ≤ ·)) :
    trimOld now time_window dq = dq.filter (fun t => !decide (t + time_window < now)) ∧
    ((trimOld now time_window dq).length < max_calls →
      check_rate_limit max_calls time_window now dq =
        ((trimOld now time_window dq).length + 1, trimOld now time_window dq ++ [now])) ∧
    (¬ (trimOld now time_window dq).length < max_calls →
      check_rate_limit max_calls time_window now dq =
        ((trimOld now time_window dq).length, trimOld now time_window dq)) ∧
    (check_rate_limit 5 60 0 [] = (1, [0]) ∧
     check_rate_limit 5 60 2 [0] = (2, [0, 2]) ∧
     check_rate_limit 5 60 4 [0, 2] = (3, [0, 2, 4]) ∧
     check_rate_limit 5 60 6 [0, 2, 4] = (4, [0, 2, 4, 6]) ∧
     check_rate_limit 5 60 8 [0, 2, 4, 6] = (5, [0, 2, 4, 6, 8]) ∧
     check_rate_limit 5 60 10 [0, 2, 4, 6, 8] = (5, [0, 2, 4, 6, 8]) ∧
     5 ≤ (check_rate_limit 5 60 10 [0, 2, 4, 6, 8]).1 ∧
     check_rate_limit 5 60 61 [0, 2, 4, 6, 8] = (5, [2, 4, 6, 8, 61])) := by
  refine ⟨trimOld_eq_filter now time_window dq hs, ?_, ?_, by decide⟩
  · intro hlt
    simp [check_rate_limit, hlt]
  · intro hge
    simp [check_rate_limit, hge]

/-- Witness for C3 at a concrete non-decreasing deque. -/
theorem check_rate_limit_witness :
    trimOld 61 60 [0, 2] = [0, 2].filter (fun t => !decide (t + 60 < 61)) ∧
    check_rate_limit 5 60 61 [0, 2] = (2, [2, 61]) := by
  have h := check_rate_limit_spec 5 60 61 [0, 2] (by decide)
  refine ⟨h.1, ?_⟩
  have h2 := h.2.1 (by decide)
  rw [h2]
  decide

/-- `pluralize` (`reminder/util.py` lines 158-161). -/
def pluralize (val : Nat) (unit : String) : String :=
  if val = 1 then toString val ++ " " ++ unit
  else toString val ++ " " ++ unit ++ "s"

/-- Python `abs(time - now)` on instants. -/
def absDelta (time now : Nat) : Nat :=
  if now ≤ time then time - now else now - time

/-- `format_time` (`reminder/util.py` lines 164-199).  The absolute
branch (`astimezone(...).strftime(...)`, a library call rendering the
instant in the user's timezone) is the oracle `absFmt`. -/
def format_time (absFmt : Nat → String) (time now : Nat) : String :=
  let delta := absDelta time now
  if delta ≤ 7 * 86400 then
    let days := delta / 86400
    let hoursA := delta % 86400 / 60
    let seconds := delta % 86400 % 60
    let hours := hoursA / 60
    let minutes := hoursA % 60
    let parts :=
      (if days > 0 then [pluralize days "day"] else []) ++
      (if hours > 0 then [pluralize hours "hour"] else []) ++
      (if minutes > 0 then [pluralize minutes "minute"] else []) ++
      (if seconds > 0 then [pluralize seconds "second"] else [])
    let formatted_time := String.intercalate " and " (parts.take 2)
    if now < time then "in " ++ formatted_time else formatted_time ++ " ago"
  else absFmt time

/-- The claim's rendering rule, stated independently: at most the two
most significant nonzero units among days, hours, minutes, seconds,
largest first, joined with " and ", singular exactly for count 1. -/
def relativeSpec (delta : Nat) : String :=
  String.intercalate " and "
    ((([(delta / 86400, "day"), (delta / 3600 % 24, "hour"),
        (delta / 60 % 60, "minute"), (delta % 60, "second")].filter
          (fun p => p.1 != 0)).map (fun p => pluralize p.1 p.2)).take 2)

theorem partsEq (d h m s : Nat) :
    (if d > 0 then [pluralize d "day"] else []) ++
    (if h > 0 then [pluralize h "hour"] else []) ++
    (if m > 0 then [pluralize m "minute"] else []) ++
    (if s > 0 then [pluralize s "second"] else []) =
    ([(d, "day"), (h, "hour"), (m, "minute"), (s, "second")].filter
      (fun p => p.1 != 0)).map (fun p => pluralize p.1 p.2) := by
  by_cases hd : d = 0 <;> by_cases hh : h = 0 <;> by_cases hm : m = 0 <;> by_cases hs : s = 0 <;>
    simp [hd, hh, hm, hs, List.filter_cons, bne_iff_ne, Nat.pos_iff_ne_zero]

theorem codeRelEq (d : Nat) :
    String.intercalate " and "
      (((if d / 86400 > 0 then [pluralize (d / 86400) "day"] else []) ++
        (if d % 86400 / 60 / 60 > 0 then [pluralize (d % 86400 / 60 / 60) "hour"] else []) ++
        (if d % 86400 / 60 % 60 > 0 then [pluralize (d % 86400 / 60 % 60) "minute"] else []) ++
        (if d % 86400 % 60 > 0 then [pluralize (d % 86400 % 60) "second"] else [])).take 2) =
    relativeSpec d := by
  have h1 : d % 86400 / 60 / 60 = d / 3600 % 24 := by
    rw [Nat.div_div_eq_div_mul]
    rw [(by norm_num : (60 : Nat) * 60 = 3600)]
    rw [(by norm_num : (86400 : Nat) = 3600 * 24)]
    exact Nat.mod_mul_right_div_self d 3600 24
  have h2 : d % 86400 / 60 % 60 = d / 60 % 60 := by
    rw [(by norm_num : (86400 : Nat) = 60 * 1440)]
    rw [Nat.mod_mul_right_div_self d 60 1440]
    exact Nat.mod_mod_of_dvd _ (by norm_num)
  have h3 : d % 86400 % 60 = d % 60 := Nat.mod_mod_of_dvd _ (by norm_num)
  rw [h1, h2, h3, partsEq, relativeSpec]

theorem format_time_rel (absFmt : Nat → String) (time now : Nat)
    (hle : absDelta time now ≤ 7 * 86400) :
    format_time absFmt time now =
      if now < time then "in " ++ relativeSpec (absDelta time now)
      else relativeSpec (absDelta time now) ++ " ago" := by
  simp only [format_time]
  rw [if_pos hle]
  by_cases h : now < time
  · rw [if_pos h, if_pos h, codeRelEq]
  · rw [if_neg h, if_neg h, codeRelEq]

/-- CLAIM C6: within 7 days `format_time` renders the relative string
built from at most the two most significant nonzero units (days,
hours, minutes, seconds), largest first, joined with " and ", with
singular names exactly for count 1, prefixed "in " for future times
and suffixed " ago" for past times; 2 h 15 min away renders as in the
claim; more than 7 days away it delegates to the absolute
timezone-formatted rendering. -/
theorem format_time_spec (absFmt : Nat → String) (time now : Nat) :
    (absDelta time now ≤ 7 * 86400 →
      (now < time → format_time absFmt time now = "in " ++ relativeSpec (time - now)) ∧
      (time < now → format_time absFmt time now = relativeSpec (now - time) ++ " ago")) ∧
    (7 * 86400 < absDelta time now → format_time absFmt time now = absFmt time) ∧
    format_time absFmt (now + 8100) now = "in 2 hours and 15 minutes" ∧
    format_time absFmt now (now + 8100) = "2 hours and 15 minutes ago" := by
  have hfut : absDelta (now + 8100) now = 8100 := by
    unfold absDelta
    rw [if_pos (by omega)]
    omega
  have hpast : absDelta now (now + 8100) = 8100 := by
    unfold absDelta
    rw [if_neg (by omega)]
    omega
  refine ⟨?_, ?_, ?_, ?_⟩
  · intro hle
    constructor
    · intro hlt
      rw [format_time_rel absFmt time now hle, if_pos hlt]
      have hd : absDelta time now = time - now := by
        unfold absDelta
        rw [if_pos (Nat.le_of_lt hlt)]
      rw [hd]
    · intro hgt
      rw [format_time_rel absFmt time now hle, if_neg (by omega : ¬ now < time)]
      have hd : absDelta time now = now - time := by
        unfold absDelta
        rw [if_neg (by omega)]
      rw [hd]
  · intro hgt
    simp only [format_time]
    rw [if_neg (by omega)]
  · rw [format_time_rel absFmt (now + 8100) now (by rw [hfut]; norm_num)]
    rw [if_pos (by omega), hfut]
    decide
  · rw [format_time_rel absFmt now (now + 8100) (by rw [hpast]; norm_num)]
    rw [if_neg (by omega), hpast]
    decide

/-- Witness for C6 at concrete instants: 8100 s ahead of 0 renders the
relative string, 700000 s (more than 7 days) renders via the absolute
formatter. -/
theorem format_time_witness :
    format_time (fun _ => "ABS") 8100 0 = "in 2 hours and 15 minutes" ∧
    format_time (fun _ => "ABS") 700000 0 = "ABS" := by
  constructor
  · rw [((format_time_spec (fun _ => "ABS") 8100 0).1 (by decide)).1 (by decide)]
    decide
  · exact (format_time_spec (fun _ => "ABS") 700000 0).2.1 (by decide)

/-- The per-user settings record (`reminder/util.py` `UserInfo`
dataclass; all four settings default to `None`).  The rate-limit deque
`last_reminders` is modelled separately by `check_rate_limit`. -/
structure UserInfo where
  locale : Option String
  timezone : Option String
  price : Option String
  facilities : Option String
deriving Repr, DecidableEq

/-- A `user_settings` row as fetched by `get_user_info` (columns may be
NULL). -/
structure UserSettingsRow where
  timezone : Option String
  locale : Option String
  price : Option String
  facilities : Option String
deriving Repr, DecidableEq

/-- Python `str.lower()` on one character (ASCII range, which is all
the comparison in `validate_price` can distinguish). -/
def charLower (c : Char) : Char :=
  if 'A' ≤ c && c ≤ 'Z' then Char.ofNat (c.toNat + 32) else c

/-- Python `price.lower()`. -/
def pyLower (s : String) : String :=
  ⟨s.data.map charLower⟩

/-- `validate_price` (`reminder/util.py` lines 91-92). -/
def validate_price (price : String) : Bool :=
  ["int", "ext", "stud", "off"].contains (pyLower price)

/-- `validate_facilities` (`reminder/util.py` lines 95-96): every
string passes (`isinstance(facilities, str)`). -/
def validate_facilities (_facilities : String) : Bool := true

/-- The per-setting logic of `get_user_info` (`db.py` lines 62-79):
`if not value or not validate(value): value = default`. -/
def pickSetting (valid : String → Bool) (stored dflt : Option String) : Option String :=
  match stored with
  | none => dflt
  | some s => if s = "" then dflt else if !valid s then dflt else some s

/-- `row.get(column, default)`: the stored column when a row was
fetched (possibly NULL), the default when no row exists. -/
def rowGet (row : Option UserSettingsRow) (f : UserSettingsRow → Option String)
    (dflt : Option String) : Option String :=
  match row with
  | none => dflt
  | some rw => f rw

/-- `db.get_user_info` (cache-miss path, `db.py` lines 50-86).  The
locale and timezone validators call the external dateparser/pytz
libraries and are oracle parameters `validL`, `validT`; the price and
facilities validators are concrete. -/
def get_user_info (validL validT : String → Bool) (defaults : UserInfo)
    (row : Option UserSettingsRow) : UserInfo :=
  { locale := pickSetting validL (rowGet row (fun rw => rw.locale) defaults.locale)
      defaults.locale
    timezone := pickSetting validT (rowGet row (fun rw => rw.timezone) defaults.timezone)
      defaults.timezone
    price := pickSetting validate_price (rowGet row (fun rw => rw.price) defaults.price)
      defaults.price
    facilities := pickSetting validate_facilities
      (rowGet row (fun rw => rw.facilities) defaults.facilities) defaults.facilities }

/-- A truthy, validator-passing setting value. -/
def goodStr (valid : String → Bool) (v : Option String) : Bool :=
  match v with
  | none => false
  | some s => s != "" && valid s

theorem pickSetting_eq (valid : String → Bool) (v d : Option String) :
    pickSetting valid v d = if goodStr valid v then v else d := by
  cases v with
  | none => simp [pickSetting, goodStr]
  | some s =>
      by_cases hs : s = "" <;> by_cases hv : valid s <;>
        simp [pickSetting, goodStr, hs, hv]

theorem goodStr_ne_none (valid : String → Bool) (v : Option String)
    (h : goodStr valid v = true) : v ≠ none := by
  cases v with
  | none => cases h
  | some s => exact fun hh => by cases hh

theorem pickSetting_good (valid : String → Bool) (v d : Option String)
    (hd : goodStr valid d = true) : goodStr valid (pickSetting valid v d) = true := by
  rw [pickSetting_eq]
  by_cases h : goodStr valid v = true
  · rw [if_pos h]
    exact h
  · rw [if_neg h]
    exact hd

/-- CLAIM C7: provided the process-wide defaults are themselves truthy
and validator-passing, every `UserInfo` returned by the load path of
`get_user_info` has all four settings truthy and valid (in particular
not null), and each field is the stored value when that value is
truthy and passes its validator, and the default otherwise (missing
row, NULL, empty, or validator failure). -/
theorem get_user_info_valid (validL validT : String → Bool) (defaults : UserInfo)
    (row : Option UserSettingsRow)
    (hL : goodStr validL defaults.locale = true)
    (hT : goodStr validT defaults.timezone = true)
    (hP : goodStr validate_price defaults.price = true)
    (hF : goodStr validate_facilities defaults.facilities = true) :
    (goodStr validL (get_user_info validL validT defaults row).locale = true ∧
     goodStr validT (get_user_info validL validT defaults row).timezone = true ∧
     goodStr validate_price (get_user_info validL validT defaults row).price = true ∧
     goodStr validate_facilities (get_user_info validL validT defaults row).facilities = true) ∧
    ((get_user_info validL validT defaults row).locale ≠ none ∧
     (get_user_info validL validT defaults row).timezone ≠ none ∧
     (get_user_info validL validT defaults row).price ≠ none ∧
     (get_user_info validL validT defaults row).facilities ≠ none) ∧
    ((get_user_info validL validT defaults row).locale =
      (if goodStr validL (rowGet row (fun rw => rw.locale) defaults.locale)
       then rowGet row (fun rw => rw.locale) defaults.locale else defaults.locale) ∧
     (get_user_info validL validT defaults row).timezone =
      (if goodStr validT (rowGet row (fun rw => rw.timezone) defaults.timezone)
       then rowGet row (fun rw => rw.timezone) defaults.timezone else defaults.timezone) ∧
     (get_user_info validL validT defaults row).price =
      (if goodStr validate_price (rowGet row (fun rw => rw.price) defaults.price)
       then rowGet row (fun rw => rw.price) defaults.price else defaults.price) ∧
     (get_user_info validL validT defaults row).facilities =
      (if goodStr validate_facilities (rowGet row (fun rw => rw.facilities) defaults.facilities)
       then rowGet row (fun rw => rw.facilities) defaults.facilities
       else defaults.facilities)) := by
  refine ⟨⟨pickSetting_good _ _ _ hL, pickSetting_good _ _ _ hT,
           pickSetting_good _ _ _ hP, pickSetting_good _ _ _ hF⟩,
          ⟨goodStr_ne_none _ _ (pickSetting_good _ _ _ hL),
           goodStr_ne_none _ _ (pickSetting_good _ _ _ hT),
           goodStr_ne_none _ _ (pickSetting_good _ _ _ hP),
           goodStr_ne_none _ _ (pickSetting_good _ _ _ hF)⟩,
          pickSetting_eq _ _ _, pickSetting_eq _ _ _, pickSetting_eq _ _ _,
          pickSetting_eq _ _ _⟩

/-- Witness for C7: a row with an invalid timezone, an invalid price
and a NULL facilities column still yields a fully valid record. -/
theorem get_user_info_witness :
    goodStr (fun s => s == "en")
      (get_user_info (fun s => s == "en") (fun s => s == "UTC")
        ⟨some "en", some "UTC", some "int", some "poly"⟩
        (some ⟨some "Mars/Base", some "en", some "banana", none⟩)).locale = true ∧
    (get_user_info (fun s => s == "en") (fun s => s == "UTC")
        ⟨some "en", some "UTC", some "int", some "poly"⟩
        (some ⟨some "Mars/Base", some "en", some "banana", none⟩)).timezone ≠ none := by
  have h := get_user_info_valid (fun s => s == "en") (fun s => s == "UTC")
    ⟨some "en", some "UTC", some "int", some "poly"⟩
    (some ⟨some "Mars/Base", some "en", some "banana", none⟩)
    (by decide) (by decide) (by decide) (by decide)
  exact ⟨h.1.1, h.2.1.2.1⟩

/-- The live bot state touched by the command handlers: the store and
the in-memory reminder registry (`self.reminders`). -/
structure BotState where
  storage : Storage
  reminders : List (String × Reminder)
deriving Repr, DecidableEq

/-- Observable transport effects of a command handler. -/
inductive Effect where
  | reply (msg : String)
  | react (emoji : String)
deriving Repr, DecidableEq

/-- The thumbs-up emoji used by the bot. -/
def thumbsUp : String := String.mk [Char.ofNat 128077]

/-- The `remind` command handler (`ethzlunch/bot.py` lines 253-290),
after the power-level fetch: if the sender's power is below the
configured admin power level, reply and stop; otherwise construct the
reminder (the `Reminder` constructor lives in the missing
`reminder.py` and may raise `CommandSyntaxError`, so it is the
`construct` parameter), store it, confirm (react + reply; the reply
body, built by `confirm_reminder`, is the `confirmMsg` parameter) and
insert it into the live registry. -/
def remind (admin_power_level user_power : Nat)
    (construct : Except String Reminder) (confirmMsg : Reminder → String)
    (st : BotState) : BotState × List Effect :=
  if user_power < admin_power_level then
    (st, [.reply ("Power level of " ++ toString admin_power_level ++ " is required")])
  else
    match construct with
    | .error e => (st, [.reply e])
    | .ok rem =>
        ({ storage := store_reminder st.storage rem,
           reminders := setKey st.reminders rem.event_id rem },
         [.react thumbsUp, .reply (confirmMsg rem)])

/-- CLAIM C9: a `remind` invocation by a user whose power level is
below the configured admin power level replies with a user-facing
message and changes no state: the store and the live registry are
returned unchanged and no reminder construction or persistence
happens (the result does not depend on `construct`). -/
theorem remind_insufficient_power (admin_power_level user_power : Nat)
    (construct : Except String Reminder) (confirmMsg : Reminder → String)
    (st : BotState) (h : user_power < admin_power_level) :
    remind admin_power_level user_power construct confirmMsg st =
      (st, [Effect.reply ("Power level of " ++ toString admin_power_level ++
        " is required")]) ∧
    (remind admin_power_level user_power construct confirmMsg st).1.storage = st.storage ∧
    (remind admin_power_level user_power construct confirmMsg st).1.reminders =
      st.reminders := by
  unfold remind
  rw [if_pos h]
  exact ⟨rfl, rfl, rfl⟩

/-- Witness for C9 at power 0 against a required level of 50. -/
theorem remind_insufficient_power_witness :
    remind 50 0 (Except.error "boom") (fun _ => "confirmed") ⟨emptyStorage, []⟩ =
      (⟨emptyStorage, []⟩,
       [Effect.reply ("Power level of " ++ toString 50 ++ " is required")]) :=
  (remind_insufficient_power 50 0 (Except.error "boom") (fun _ => "confirmed")
    ⟨emptyStorage, []⟩ (by decide)).1

/-- Modelled from the spec: `Reminder.add_subscriber` lives in the
missing `reminder.py`; per the spec it records the reaction-event to
user mapping on the reminder and persists it as a subscriber row. Only
the positive branch of `subscribe_react` uses it, and claim C10 is
about the negative branch, which holds for every `addSub`. -/
def addSubModel (st : BotState) (r : Reminder) (user sid : String) : BotState :=
  ⟨add_subscriber st.storage r.event_id user sid,
   setKey st.reminders r.event_id
     { r with subscribed_users := setKey r.subscribed_users sid user }⟩

/-- The thumbs-up reaction handler `subscribe_react` (`ethzlunch/bot.py`
lines 332-342): look up the reacted-to event id in the live registry;
if absent do nothing, otherwise delegate to `Reminder.add_subscriber`
(the `addSub` parameter). -/
def subscribe_react (addSub : BotState → Reminder → String → String → BotState)
    (st : BotState) (relates_to_event_id sender reaction_event_id : String) : BotState :=
  match lookupKey st.reminders relates_to_event_id with
  | none => st
  | some rem => addSub st rem sender reaction_event_id

/-- CLAIM C10: a thumbs-up reaction whose related event id is not a key
of the live registry changes nothing: the state (registry and storage)
is returned untouched, for any behaviour of `add_subscriber`. -/
theorem subscribe_react_frame (addSub : BotState → Reminder → String → String → BotState)
    (st : BotState) (relates_to_event_id sender reaction_event_id : String)
    (h : lookupKey st.reminders relates_to_event_id = none) :
    subscribe_react addSub st relates_to_event_id sender reaction_event_id = st := by
  unfold subscribe_react
  rw [h]

/-- Witness for C10: a reaction to an unknown event id with the
spec-modelled `add_subscriber` leaves the state unchanged. -/
theorem subscribe_react_frame_witness :
    subscribe_react addSubModel ⟨emptyStorage, []⟩ "unknown" "user" "rid" =
      ⟨emptyStorage, []⟩ :=
  subscribe_react_frame addSubModel ⟨emptyStorage, []⟩ "unknown" "user" "rid" rfl

/-- Python regex whitespace class (ASCII model). -/
def pySpaceChar (c : Char) : Bool :=
  c = ' ' || c = '\t' || c = '\n' || c = '\r' || c = '\x0b' || c = '\x0c'

/-- Python regex word-character class (ASCII model: alphanumerics and
underscore). -/
def isWordChar (c : Char) : Bool :=
  c.isAlphanum || c = '_'

/-- Word boundary after a match: end of input or a non-word character. -/
def boundaryAfter : List Char → Bool
  | [] => true
  | c :: _ => !isWordChar c

/-- One attempt of the pattern of
`re.sub(r"(\b\d+)\s?w\b", r"\1wk", s, count=1)` (`reminder/util.py`
line 120) at the current position: on a match return the replacement
(`\1wk`, the optional whitespace dropped) and the remaining input. -/
def matchWAt (prev : Option Char) (l : List Char) : Option (List Char × List Char) :=
  if (match prev with | none => true | some c => !isWordChar c) then
    let ds := l.takeWhile Char.isDigit
    let rest := l.drop ds.length
    if ds.isEmpty then none
    else
      match rest with
      | 'w' :: r2 => if boundaryAfter r2 then some (ds ++ ['w', 'k'], r2) else none
      | c :: 'w' :: r2 =>
          if pySpaceChar c && boundaryAfter r2 then some (ds ++ ['w', 'k'], r2) else none
      | _ => none
  else none

/-- Left-to-right scan replacing the first match (`count=1`). -/
def subWGo : Option Char → List Char → List Char
  | _, [] => []
  | prev, c :: rest =>
      match matchWAt prev (c :: rest) with
      | some (rep, rest2) => rep ++ rest2
      | none => c :: subWGo (some c) rest

/-- The `"3w"` to `"3wk"` preprocessing of `parse_date`
(`reminder/util.py` line 120). -/
def subW (s : String) : String :=
  ⟨subWGo none s.data⟩

/-- End indices (exclusive, in characters) of the maximal
non-whitespace runs of the input: the `i.end()` values of
`re.finditer(r"\S+", str_with_time)`. -/
def tokenEndsAux : Nat → List Char → List Nat
  | _, [] => []
  | i, [c] => if pySpaceChar c then [] else [i + 1]
  | i, c :: c2 :: rest =>
      if !pySpaceChar c && pySpaceChar c2 then (i + 1) :: tokenEndsAux (i + 1) (c2 :: rest)
      else tokenEndsAux (i + 1) (c2 :: rest)

def tokenEnds (s : String) : List Nat :=
  tokenEndsAux 0 s.data

/-- Python slice `s[:e]` (by character index). -/
def strTake (s : String) (n : Nat) : String :=
  ⟨s.data.take n⟩

/-- The external `dateparser` library as an oracle: `dateparser.parse`
on a candidate prefix (with the locale/timezone settings fixed by the
caller) and `search_dates` returning its first `(matched text, date)`
pair, if any. -/
structure ParseDeps where
  parse : String → Option Nat
  search : String → Option (String × Nat)

/-- The two `CommandSyntaxError` outcomes of `parse_date`: the
unparseable-date error (raised with the date-examples hint) and the
past-time error. -/
inductive ParseDateError where
  | unparseableTime
  | pastTime (t : Nat)
deriving Repr, DecidableEq

/-- The prefix loop of `parse_date` (`reminder/util.py` lines 130-137):
try the prefixes ending at the given token-end positions in the given
order and return the first successful parse with the consumed prefix. -/
def firstParse (p : String → Option Nat) (s : String) : List Nat → Option (Nat × String)
  | [] => none
  | e :: rest =>
      match p (strTake s e) with
      | some d => some (d, strTake s e)
      | none => firstParse p s rest

/-- The date-extraction phase of `parse_date` (`reminder/util.py`
lines 119-143): preprocess, try the prefixes ending at the first 8
token ends in reversed (longest-first) order, and fall back to
`search_dates` over the whole string. -/
def foundDate (deps : ParseDeps) (str_with_time : String) : Option (Nat × String) :=
  let s := subW str_with_time
  match firstParse deps.parse s ((tokenEnds s).take 8).reverse with
  | some r => some r
  | none =>
      match deps.search s with
      | some (date_str, d) => some (d, date_str)
      | none => none

/-- `parse_date` (`reminder/util.py` lines 99-155) with the clock as an
argument: extract a date (or fail with the unparseable-time error),
truncate sub-second precision (identity at this granularity), and
reject instants strictly before now with the past-time error. -/
def parse_date (deps : ParseDeps) (now : Nat) (str_with_time : String) :
    Except ParseDateError (Nat × String) :=
  match foundDate deps str_with_time with
  | none => .error .unparseableTime
  | some (d, date_str) =>
      if d < now then .error (.pastTime d) else .ok (d, date_str)

theorem firstParse_none_iff (p : String → Option Nat) (s : String) (l : List Nat) :
    firstParse p s l = none ↔ ∀ e ∈ l, p (strTake s e) = none := by
  induction l with
  | nil => simp [firstParse]
  | cons e rest ih =>
      rcases hp : p (strTake s e) with _ | d
      · simp [firstParse, hp, ih]
      · simp [firstParse, hp]

theorem foundDate_none_iff (deps : ParseDeps) (s : String) :
    foundDate deps s = none ↔
      ((∀ e ∈ (tokenEnds (subW s)).take 8, deps.parse (strTake (subW s) e) = none) ∧
       deps.search (subW s) = none) := by
  rcases hf : firstParse deps.parse (subW s) ((tokenEnds (subW s)).take 8).reverse
    with _ | r
  · rcases hs : deps.search (subW s) with _ | ⟨ds, d⟩
    · have hgoal : foundDate deps s = none := by
        simp only [foundDate, hf, hs]
      rw [firstParse_none_iff] at hf
      simp only [List.mem_reverse] at hf
      exact ⟨fun _ => ⟨hf, rfl⟩, fun _ => hgoal⟩
    · have hgoal : foundDate deps s = some (d, ds) := by
        simp only [foundDate, hf, hs]
      constructor
      · intro h
        rw [hgoal] at h
        exact Option.noConfusion h
      · rintro ⟨_, hc⟩
        exact Option.noConfusion hc
  · have hgoal : foundDate deps s = some r := by
      simp only [foundDate, hf]
    constructor
    · intro h
      rw [hgoal] at h
      exact Option.noConfusion h
    · rintro ⟨hall, _⟩
      have h0 := (firstParse_none_iff deps.parse (subW s)
        ((tokenEnds (subW s)).take 8).reverse).mpr
        (fun e he => hall e (List.mem_reverse.mp he))
      rw [h0] at hf
      exact Option.noConfusion hf

/-- CLAIM C4 (amended): the outcomes of `parse_date` are exactly:
success carrying a found date with instant `≥ now` (not necessarily
strictly after now), the unparseable-time error exactly when no prefix
of the first 8 tokens parses and the embedded search finds nothing,
and the past-time error exactly when a date is found whose instant is
strictly before now. -/
theorem parse_date_outcomes (deps : ParseDeps) (now : Nat) (s : String) :
    (parse_date deps now s = .error .unparseableTime ↔
      ((∀ e ∈ (tokenEnds (subW s)).take 8, deps.parse (strTake (subW s) e) = none) ∧
       deps.search (subW s) = none)) ∧
    (∀ d, parse_date deps now s = .error (.pastTime d) ↔
      ((∃ ds, foundDate deps s = some (d, ds)) ∧ d < now)) ∧
    (∀ d ds, parse_date deps now s = .ok (d, ds) ↔
      (foundDate deps s = some (d, ds) ∧ now ≤ d)) := by
  rcases hf : foundDate deps s with _ | ⟨d0, ds0⟩
  · have hpd : parse_date deps now s = .error .unparseableTime := by
      simp only [parse_date, hf]
    refine ⟨?_, ?_, ?_⟩
    · rw [hpd]
      exact ⟨fun _ => (foundDate_none_iff deps s).mp hf, fun _ => rfl⟩
    · intro d
      rw [hpd]
      constructor
      · intro he
        simp at he
      · rintro ⟨⟨ds, hds⟩, _⟩
        exact Option.noConfusion hds
    · intro d ds
      rw [hpd]
      constructor
      · intro he
        simp at he
      · rintro ⟨hds, _⟩
        exact Option.noConfusion hds
  · by_cases h : d0 < now
    · have hpd : parse_date deps now s = .error (.pastTime d0) := by
        simp only [parse_date, hf, if_pos h]
      refine ⟨?_, ?_, ?_⟩
      · rw [hpd]
        constructor
        · intro he
          simp at he
        · intro hc
          rw [(foundDate_none_iff deps s).mpr hc] at hf
          exact Option.noConfusion hf
      · intro d
        rw [hpd]
        constructor
        · intro he
          injection he with he2
          injection he2 with h1
          cases h1
          exact ⟨⟨ds0, rfl⟩, h⟩
        · rintro ⟨⟨ds, hds⟩, hdlt⟩
          injection hds with hds2
          injection hds2 with h1 h2
          cases h1
          rfl
      · intro d ds
        rw [hpd]
        constructor
        · intro he
          simp at he
        · rintro ⟨hds, hge⟩
          injection hds with hds2
          injection hds2 with h1 h2
          cases h1
          omega
    · have hpd : parse_date deps now s = .ok (d0, ds0) := by
        simp only [parse_date, hf, if_neg h]
      refine ⟨?_, ?_, ?_⟩
      · rw [hpd]
        constructor
        · intro he
          simp at he
        · intro hc
          rw [(foundDate_none_iff deps s).mpr hc] at hf
          exact Option.noConfusion hf
      · intro d
        rw [hpd]
        constructor
        · intro he
          simp at he
        · rintro ⟨⟨ds, hds⟩, hdlt⟩
          injection hds with hds2
          injection hds2 with h1 h2
          cases h1
          omega
      · intro d ds
        rw [hpd]
        constructor
        · intro he
          injection he with he2
          injection he2 with h1 h2
          cases h1
          cases h2
          exact ⟨rfl, by omega⟩
        · rintro ⟨hds, _⟩
          injection hds with hds2
          injection hds2 with h1 h2
          cases h1
          cases h2
          rfl

/-- An oracle whose parser resolves every string to the instant 5. -/
def cdepsEq : ParseDeps := ⟨fun _ => some 5, fun _ => none⟩

/-- Counterexample to C4 as stated: at now = 5 with a date resolving to
the instant 5, `parse_date` succeeds and returns an instant that is
not strictly after now; the claim requires a past-time error exactly
when the resolved instant is not strictly after now, but the code only
raises it for instants strictly before now. -/
theorem parse_date_outcomes_counterexample :
    parse_date cdepsEq 5 "x" = Except.ok (5, "x") ∧ ¬ (5 : Nat) > 5 :=
  ⟨rfl, by omega⟩

/-- An oracle that finds no date anywhere. -/
def cdepsNone : ParseDeps := ⟨fun _ => none, fun _ => none⟩

/-- Witness for C4: when neither any token prefix nor the embedded
search finds a date, `parse_date` raises the unparseable-time error. -/
theorem parse_date_outcomes_witness :
    parse_date cdepsNone 0 "hello world" = Except.error ParseDateError.unparseableTime :=
  (parse_date_outcomes cdepsNone 0 "hello world").1.mpr ⟨fun _ _ => rfl, rfl⟩

theorem tokenEndsAux_bounds (l : List Char) :
    ∀ i : Nat, (tokenEndsAux i l).Pairwise (· < ·) ∧ ∀ x ∈ tokenEndsAux i l, i < x := by
  induction l with
  | nil =>
      intro i
      simp [tokenEndsAux]
  | cons c rest ih =>
      intro i
      cases rest with
      | nil =>
          by_cases h : pySpaceChar c
          · simp [tokenEndsAux, h]
          · refine ⟨?_, ?_⟩
            · simp [tokenEndsAux, h]
            · intro x hx
              simp [tokenEndsAux, h] at hx
              omega
      | cons c2 rest2 =>
          obtain ⟨hp, hb⟩ := ih (i + 1)
          by_cases h : (!pySpaceChar c && pySpaceChar c2) = true
          · refine ⟨?_, ?_⟩
            · simp only [tokenEndsAux, if_pos h, List.pairwise_cons]
              exact ⟨hb, hp⟩
            · intro x hx
              simp only [tokenEndsAux, if_pos h, List.mem_cons] at hx
              rcases hx with hx | hx
              · omega
              · have := hb x hx
                omega
          · refine ⟨?_, ?_⟩
            · simp only [tokenEndsAux, if_neg h]
              exact hp
            · intro x hx
              simp only [tokenEndsAux, if_neg h] at hx
              have := hb x hx
              omega

theorem windowEnds_rev_sorted (s : String) :
    (((tokenEnds s).take 8).reverse).Pairwise (· > ·) := by
  rw [List.pairwise_reverse]
  exact List.Pairwise.sublist (List.take_sublist 8 _)
    (tokenEndsAux_bounds s.data 0).1

theorem firstParse_hit (p : String → Option Nat) (s : String) (e d : Nat)
    (hp : p (strTake s e) = some d) :
    ∀ l : List Nat, l.Pairwise (· > ·) → e ∈ l →
      (∀ e2 ∈ l, e < e2 → p (strTake s e2) = none) →
      firstParse p s l = some (d, strTake s e) := by
  intro l
  induction l with
  | nil =>
      intro _ hm _
      cases hm
  | cons h0 t ih =>
      intro hpw hm hnone
      rw [List.pairwise_cons] at hpw
      rcases List.mem_cons.mp hm with he | ht
      · subst he
        simp [firstParse, hp]
      · have hh : p (strTake s h0) = none :=
          hnone h0 (List.mem_cons_self _ _) (hpw.1 e ht)
        simp only [firstParse, hh]
        exact ih hpw.2 ht (fun e2 hm2 hlt => hnone e2 (List.mem_cons_of_mem _ hm2) hlt)

/-- CLAIM C5 (amended): when a date expression is found among the
whitespace-delimited prefixes of the (preprocessed) input bounded to
the first 8 tokens, `parse_date` uses the parse of the LONGEST such
prefix (the loop iterates the token ends in reversed order and stops
at the first success); only if no prefix in the window parses does it
fall back to searching for an embedded date in the whole string. -/
theorem parse_date_longest (deps : ParseDeps) (now : Nat) (s : String) :
    (∀ e d, e ∈ (tokenEnds (subW s)).take 8 →
      deps.parse (strTake (subW s) e) = some d →
      (∀ e2 ∈ (tokenEnds (subW s)).take 8, e < e2 →
        deps.parse (strTake (subW s) e2) = none) →
      (foundDate deps s = some (d, strTake (subW s) e) ∧
       parse_date deps now s =
         (if d < now then Except.error (ParseDateError.pastTime d)
          else Except.ok (d, strTake (subW s) e)))) ∧
    ((∀ e ∈ (tokenEnds (subW s)).take 8, deps.parse (strTake (subW s) e) = none) →
      foundDate deps s = (deps.search (subW s)).map (fun q => (q.2, q.1))) := by
  constructor
  · intro e d hm hp hnone
    have hfp : firstParse deps.parse (subW s) ((tokenEnds (subW s)).take 8).reverse =
        some (d, strTake (subW s) e) :=
      firstParse_hit deps.parse (subW s) e d hp _ (windowEnds_rev_sorted (subW s))
        (List.mem_reverse.mpr hm)
        (fun e2 hm2 hlt => hnone e2 (List.mem_reverse.mp hm2) hlt)
    have hfd : foundDate deps s = some (d, strTake (subW s) e) := by
      simp only [foundDate, hfp]
    refine ⟨hfd, ?_⟩
    simp only [parse_date, hfd]
  · intro hall
    have hfp : firstParse deps.parse (subW s) ((tokenEnds (subW s)).take 8).reverse = none :=
      (firstParse_none_iff _ _ _).mpr (fun e he => hall e (List.mem_reverse.mp he))
    simp only [foundDate, hfp]
    rcases hs : deps.search (subW s) with _ | ⟨ds, d⟩
    · rfl
    · rfl

/-- An oracle under which both the one-token prefix and the two-token
prefix parse, to different instants. -/
def cdepsLong : ParseDeps :=
  ⟨fun q => if q = "a b" then some 20 else if q = "a" then some 10 else none,
   fun _ => none⟩

/-- Counterexample to C5 as stated: on input "a b" both the prefix "a"
and the prefix "a b" parse; preferring the shortest prefix would yield
(10, "a"), but `parse_date` returns the parse of the longest prefix,
(20, "a b"). -/
theorem parse_date_longest_counterexample :
    parse_date cdepsLong 0 "a b" = Except.ok (20, "a b") ∧
    ((20 : Nat), ("a b" : String)) ≠ (10, "a") :=
  ⟨rfl, by decide⟩

/-- An oracle under which only the one-token prefix "a" parses. -/
def cdepsShort : ParseDeps :=
  ⟨fun q => if q = "a" then some 10 else none, fun _ => none⟩

/-- Witness for the amended C5: the prefix "a" is the longest parsing
prefix of "a b", and `parse_date` uses it. -/
theorem parse_date_longest_witness :
    foundDate cdepsShort "a b" = some (10, strTake (subW "a b") 1) ∧
    parse_date cdepsShort 0 "a b" =
      (if 10 < 0 then Except.error (ParseDateError.pastTime 10)
       else Except.ok (10, strTake (subW "a b") 1)) :=
  (parse_date_longest cdepsShort 0 "a b").1 1 10 (by decide) (by decide) (by decide)
